import Mathlib

/-!
Shallow embedding of the foxel photon-transport core (src/world.rs and
src/renderer.rs) over exact real arithmetic.  Machine `f32` values are
modelled as real numbers; `f32::sqrt`, `powf` and the nalgebra vector
operations are modelled by their exact real counterparts.  The Rust
`usize` cast of a rounded `f32` (which saturates at zero for negative
inputs) is modelled by `Int.toNat ∘ round`, which agrees with it on the
whole range relevant here.
-/

set_option maxHeartbeats 1000000

namespace Foxel

/-- Three-component vector (nalgebra `Vector3<f32>`), over the reals. -/
structure Vec3 where
  x : ℝ
  y : ℝ
  z : ℝ

/-- Two-component vector (nalgebra `Vector2<f32>`). -/
structure Vec2 where
  x : ℝ
  y : ℝ

namespace Vec3

noncomputable def add (a b : Vec3) : Vec3 := ⟨a.x + b.x, a.y + b.y, a.z + b.z⟩

noncomputable def sub (a b : Vec3) : Vec3 := ⟨a.x - b.x, a.y - b.y, a.z - b.z⟩

/-- Scalar multiplication `v * c`. -/
noncomputable def smul (a : Vec3) (c : ℝ) : Vec3 := ⟨a.x * c, a.y * c, a.z * c⟩

noncomputable def dot (a b : Vec3) : ℝ := a.x * b.x + a.y * b.y + a.z * b.z

/-- Squared Euclidean norm. -/
noncomputable def normSq (a : Vec3) : ℝ := a.x * a.x + a.y * a.y + a.z * a.z

/-- Euclidean norm (nalgebra `norm`). -/
noncomputable def norm (a : Vec3) : ℝ := Real.sqrt a.normSq

/-- nalgebra `normalize`: divide by the norm. -/
noncomputable def normalize (a : Vec3) : Vec3 := a.smul (1 / a.norm)

/-- nalgebra `metric_distance`: norm of the difference. -/
noncomputable def dist (a b : Vec3) : ℝ := (a.sub b).norm

end Vec3

/-- The `Photon` record of src/renderer.rs (the `_pad` field is layout
padding and is omitted). -/
structure Photon where
  pos : Vec3
  dir : Vec3
  wavelength : ℝ

/-- Piecewise-linear visible-spectrum conversion with gamma correction,
`Photon::wavelength_to_rgb` of src/renderer.rs.  Rust `powf` on the
nonnegative bases produced here is modelled by `Real.rpow`. -/
noncomputable def Photon.wavelengthToRgb (p : Photon) : Vec3 :=
  let wavelength := p.wavelength
  let gamma : ℝ := 0.8
  let rgb : Vec3 :=
    if 380 ≤ wavelength ∧ wavelength < 440 then
      let attenuat := 0.3 + 0.7 * (wavelength - 380) / (440 - 380)
      ⟨-(wavelength - 440) / (440 - 380) * attenuat, 0, 1 * attenuat⟩
    else if 440 ≤ wavelength ∧ wavelength < 490 then
      ⟨0, (wavelength - 440) / (490 - 440), 1⟩
    else if 490 ≤ wavelength ∧ wavelength < 510 then
      ⟨0, 1, -(wavelength - 510) / (510 - 490)⟩
    else if 510 ≤ wavelength ∧ wavelength < 580 then
      ⟨(wavelength - 510) / (580 - 510), 1, 0⟩
    else if 580 ≤ wavelength ∧ wavelength < 645 then
      ⟨1, -(wavelength - 645) / (645 - 580), 0⟩
    else if 645 ≤ wavelength ∧ wavelength ≤ 780 then
      let attenuat := 0.3 + 0.7 * (780 - wavelength) / (780 - 645)
      ⟨1 * attenuat, 0, 0⟩
    else ⟨0, 0, 0⟩
  ⟨Real.rpow rgb.x gamma, Real.rpow rgb.y gamma, Real.rpow rgb.z gamma⟩

/-- The `Camera` of src/world.rs.  The precomputed
`UnitQuaternion::rotation_between(&dir, &Vector3::z())` (an external
nalgebra routine) is carried as the function `rot`; `Camera::new` stores
the rotation that maps `dir` to the positive z axis. -/
structure Camera where
  pos : Vec3
  dir : Vec3
  up : Vec3
  aspect : ℝ
  aperture : ℝ
  focal_length : ℝ
  rot : Vec3 → Vec3

namespace Camera

/-- Plane-thickness tolerance `EPSILON` of `Camera::collision`. -/
noncomputable def EPSILON : ℝ := 0.08

/-- Direction tolerance `V_EPSILON` of `Camera::collision`. -/
noncomputable def V_EPSILON : ℝ := 0.0001

/-- Fixed sensor width, the local `sensor_width = 5.0`. -/
noncomputable def sensorWidth : ℝ := 5.0

/-- `sensor_height = sensor_width / self.aspect`. -/
noncomputable def sensorHeight (c : Camera) : ℝ := sensorWidth / c.aspect

/-- `mapped = self.rot * (photon.pos - self.pos)`. -/
noncomputable def mapped (c : Camera) (p : Photon) : Vec3 := c.rot (p.pos.sub c.pos)

/-- `mapped_dir = self.rot * photon.dir`. -/
noncomputable def mappedDir (c : Camera) (p : Photon) : Vec3 := c.rot p.dir

/-- Sensor-plane x coordinate
`x = mapped.x + mapped_dir.x / -mapped_dir.z * self.focal_length * 2.0`. -/
noncomputable def projX (c : Camera) (p : Photon) : ℝ :=
  (c.mapped p).x + (c.mappedDir p).x / -(c.mappedDir p).z * c.focal_length * 2

/-- Sensor-plane y coordinate, analogous to `projX`. -/
noncomputable def projY (c : Camera) (p : Photon) : ℝ :=
  (c.mapped p).y + (c.mappedDir p).y / -(c.mappedDir p).z * c.focal_length * 2

/-- `Camera::collision` of src/world.rs: the aperture test returning the
normalized sensor coordinates on acceptance. -/
noncomputable def collision (c : Camera) (p : Photon) : Option Vec2 :=
  if |(c.mapped p).z| > EPSILON then none
  else if (c.mapped p).x * (c.mapped p).x + (c.mapped p).y * (c.mapped p).y >
      c.aperture * c.aperture then none
  else if (c.mappedDir p).z > -V_EPSILON then none
  else if |c.projX p| > sensorWidth / 2 ∨ |c.projY p| > c.sensorHeight / 2 then none
  else some ⟨-(c.projX p) / sensorWidth + 0.5, -(c.projY p) / c.sensorHeight + 0.5⟩

end Camera

/-- The `Intersection` record of src/world.rs: `intersection` is the
`u32` hit flag (`true.into() = 1`, `false.into() = 0`); the `_pad` field
is omitted.  For a miss, `pos` keeps its `Default` value `(0, 0)`. -/
structure Intersection where
  intersection : ℕ
  pos : Vec2
  photon : Photon

/-- The `World` of src/world.rs. -/
structure World where
  camera : Camera
  black_hole_pos : Vec3
  black_hole_mass : ℝ

namespace World

/-- `World::c`. -/
noncomputable def c (_ : World) : ℝ := 3e8

/-- `World::c_squared`. -/
noncomputable def c_squared (w : World) : ℝ := w.c * w.c

/-- `World::g`. -/
noncomputable def g (_ : World) : ℝ := 6.67e-11

/-- `World::schwarzschild_radius`. -/
noncomputable def schwarzschild_radius (w : World) : ℝ :=
  2.0 * w.g * w.black_hole_mass / (w.c * w.c)

/-- Number of integration steps, the `ITERATIONS` constant of `raymarch`. -/
def ITERATIONS : ℕ := 600

/-- Integration step length, the `time_scale` constant of `raymarch`. -/
noncomputable def timeScale : ℝ := 0.015

end World

/-- One position update `photon.pos += photon.dir * time_scale`. -/
noncomputable def Photon.advance (p : Photon) : Photon :=
  { p with pos := p.pos.add (p.dir.smul World.timeScale) }

namespace World

/-- The photon passed to the next loop iteration: position update followed
by the gravitational deflection
`photon.dir += bh_dir * a / self.c_squared() * time_scale` and
renormalization.  (The guards of the loop body are evaluated by the
caller; this is the pure state update of the non-terminal branch.) -/
noncomputable def nextPhoton (w : World) (p : Photon) : Photon :=
  let moved := p.advance
  let bhDist := moved.pos.dist w.black_hole_pos
  let bhDir := (w.black_hole_pos.sub moved.pos).normalize
  let a := w.g * w.black_hole_mass / (bhDist * bhDist)
  { moved with dir := (moved.dir.add (bhDir.smul (a / w.c_squared * timeScale))).normalize }

/-- The loop of `World::raymarch`, with the remaining iteration budget as
structural fuel (`fuel = ITERATIONS - i`) and an instrumentation counter
recording how many loop iterations were entered.  The early-exit distance
threshold `(ITERATIONS - i) as f32 * time_scale` equals
`fuel * time_scale` in this indexing. -/
noncomputable def raymarchAux (w : World) : ℕ → Photon → Intersection × ℕ
  | 0, photon => (⟨0, ⟨0, 0⟩, photon⟩, 0)
  | n + 1, photon =>
    match w.camera.collision photon with
    | some pos => (⟨1, pos, photon⟩, 1)
    | none =>
      let moved := photon.advance
      if moved.pos.dist w.camera.pos > ((n : ℝ) + 1) * timeScale then
        (⟨0, ⟨0, 0⟩, moved⟩, 1)
      else if moved.pos.dist w.black_hole_pos < w.schwarzschild_radius then
        (⟨0, ⟨0, 0⟩, moved⟩, 1)
      else
        let rest := w.raymarchAux n (w.nextPhoton photon)
        (rest.1, rest.2 + 1)

/-- `World::raymarch` of src/world.rs. -/
noncomputable def raymarch (w : World) (p : Photon) : Intersection :=
  (w.raymarchAux ITERATIONS p).1

/-- Number of loop iterations `raymarch` enters on a given photon. -/
noncomputable def raymarchSteps (w : World) (p : Photon) : ℕ :=
  (w.raymarchAux ITERATIONS p).2

/-- `World::new` of src/world.rs.  The nalgebra quaternion
`rotation_between(&dir, &Vector3::z())` is abstracted as the parameter
`rot` (every claim below holds for an arbitrary rotation slot). -/
noncomputable def new (rot : Vec3 → Vec3) (screen_width screen_height : ℝ) : World :=
  { camera :=
      { pos := ⟨0, 1.5, 2.5⟩
        dir := Vec3.normalize ⟨0, -1.5, -2.5⟩
        up := Vec3.normalize ⟨0, 1, 0⟩
        aspect := screen_width / screen_height
        aperture := 0.02
        focal_length := 1.0
        rot := rot }
    black_hole_pos := ⟨0, 0, 0⟩
    black_hole_mass := 2e26 }

end World

/-- The macroquad `Color` (rgba, each channel an `f32`). -/
structure Color where
  r : ℝ
  g : ℝ
  b : ℝ
  a : ℝ

/-- The `Screen` accumulator of src/renderer.rs: per-pixel running color
(`image`, indexed as in `Image::get_pixel`) and per-pixel sample count
(`samp_buf`, an `Array2<f32>` of shape `(width, height)`). -/
structure Screen where
  width : ℕ
  height : ℕ
  sampBuf : ℕ × ℕ → ℝ
  image : ℕ × ℕ → Color

namespace Screen

/-- `Screen::new`: `samp_buf` all ones, image filled with `BLACK`
(rgba `(0, 0, 0, 1)`). -/
noncomputable def new (width height : ℕ) : Screen :=
  ⟨width, height, fun _ => 1, fun _ => ⟨0, 0, 0, 1⟩⟩

/-- Target pixel x index
`(pos.x * (self.width - 1) as f32).round() as usize`.  The saturating
Rust float-to-`usize` cast is `Int.toNat` of the rounded value. -/
noncomputable def targetX (s : Screen) (pos : Vec2) : ℕ :=
  (round (pos.x * ((s.width - 1 : ℕ) : ℝ))).toNat

/-- Target pixel y index, analogous to `targetX`. -/
noncomputable def targetY (s : Screen) (pos : Vec2) : ℕ :=
  (round (pos.y * ((s.height - 1 : ℕ) : ℝ))).toNat

/-- Checked lookup in `samp_buf` (ndarray `get_mut` on an array of shape
`(width, height)`). -/
noncomputable def sampGet (s : Screen) (q : ℕ × ℕ) : Option ℝ :=
  if q.1 < s.width ∧ q.2 < s.height then some (s.sampBuf q) else none

/-- The running-mean color update of `Screen::blend_rays`:
`mix = 1 / mix_fac` with `mix_fac` the current sample count, each channel
set to `mix * new + (1 - mix) * old`, alpha forced to one. -/
noncomputable def blendedColor (s : Screen) (ins : Intersection) (q : ℕ × ℕ) : Color :=
  let mix := 1 / s.sampBuf q
  let col := s.image q
  let newCol := ins.photon.wavelengthToRgb
  ⟨mix * newCol.x + (1 - mix) * col.r,
   mix * newCol.y + (1 - mix) * col.g,
   mix * newCol.z + (1 - mix) * col.b, 1⟩

/-- One trip of the `Screen::blend_rays` loop body for a single
intersection.  Misses are skipped by the iterator filter
`ray.intersection != 0`; a `none` result models the `unwrap` panic on a
failed `samp_buf` lookup (shown below to be unreachable). -/
noncomputable def blendOne (s : Screen) (ins : Intersection) : Option Screen :=
  if ins.intersection = 0 then some s
  else
    let x := s.targetX ins.pos
    let y := s.targetY ins.pos
    if s.width ≤ x ∨ s.height ≤ y then some s
    else
      match s.sampGet (x, y) with
      | none => none
      | some mixFac =>
        some { s with image := Function.update s.image (x, y) (s.blendedColor ins (x, y)),
                      sampBuf := Function.update s.sampBuf (x, y) (mixFac + 1) }

/-- `Screen::blend_rays` over a list of intersections. -/
noncomputable def blendRays : Screen → List Intersection → Option Screen
  | s, [] => some s
  | s, ins :: rest =>
    match s.blendOne ins with
    | none => none
    | some s2 => Screen.blendRays s2 rest

end Screen

/-! ### Concrete instances used in witnesses and counterexamples -/

/-- The world of `World::new` with the rotation slot instantiated by the
identity map. -/
noncomputable def stdWorld : World := World.new id 1 1

/-- A photon placed strictly inside the Schwarzschild radius
(`r_s = 667/2250 ≈ 0.2964`) and heading radially outward. -/
noncomputable def insidePhoton : Photon := ⟨⟨0.29, 0, 0⟩, ⟨1, 0, 0⟩, 550⟩

/-- A photon whose first position update lands inside the horizon. -/
noncomputable def capturedPhoton : Photon := ⟨⟨0, 0, 0.1⟩, ⟨0, 0, -1⟩, 550⟩

/-- A photon far from the camera, used for the early-exit escape branch. -/
noncomputable def farPhoton : Photon := ⟨⟨0, 0, 10⟩, ⟨0, 0, 1⟩, 550⟩

/-- A unit-direction photon for the normalization witness. -/
noncomputable def unitPhoton : Photon := ⟨⟨5, 5, 5⟩, ⟨0, 0, 1⟩, 550⟩

/-- An axis-aligned camera with identity rotation slot. -/
noncomputable def axisCam : Camera := ⟨⟨0, 0, 0⟩, ⟨0, 0, -1⟩, ⟨0, 1, 0⟩, 1, 0.02, 1, id⟩

/-- A photon sitting on that camera's aperture centre, flying into it. -/
noncomputable def axisPhoton : Photon := ⟨⟨0, 0, 0⟩, ⟨0, 0, -1⟩, 550⟩

/-- A hit at the sensor centre with wavelength 580 nm (RGB `(1, 1, 0)`). -/
noncomputable def centreHit : Intersection := ⟨1, ⟨0, 0⟩, ⟨⟨0, 0, 0⟩, ⟨0, 0, 0⟩, 580⟩⟩

/-- A hit whose sensor x coordinate is negative: the mathematically
rounded pixel index is `-2`, outside the grid. -/
noncomputable def negHit : Intersection := ⟨1, ⟨-1, 0.5⟩, ⟨⟨0, 0, 0⟩, ⟨0, 0, 0⟩, 580⟩⟩

/-- A miss record. -/
noncomputable def missRay : Intersection := ⟨0, ⟨0, 0⟩, ⟨⟨0, 0, 0⟩, ⟨0, 0, 0⟩, 580⟩⟩

/-! ### Basic vector lemmas -/

namespace Vec3

theorem normSq_nonneg (a : Vec3) : 0 ≤ a.normSq := by
  unfold normSq
  nlinarith [mul_self_nonneg a.x, mul_self_nonneg a.y, mul_self_nonneg a.z]

theorem norm_nonneg (a : Vec3) : 0 ≤ a.norm := Real.sqrt_nonneg _

theorem norm_eq_one_iff (a : Vec3) : a.norm = 1 ↔ a.normSq = 1 := Real.sqrt_eq_one

theorem norm_pos (a : Vec3) (h : 0 < a.normSq) : 0 < a.norm := Real.sqrt_pos.mpr h

theorem normSq_smul (a : Vec3) (c : ℝ) : (a.smul c).normSq = (c * c) * a.normSq := by
  unfold normSq smul; ring

theorem norm_smul (a : Vec3) (c : ℝ) : (a.smul c).norm = |c| * a.norm := by
  unfold norm
  rw [normSq_smul, Real.sqrt_mul (mul_self_nonneg c), Real.sqrt_mul_self_eq_abs]

theorem normalize_norm (a : Vec3) (h : a.normSq ≠ 0) : a.normalize.norm = 1 := by
  have hpos : 0 < a.normSq := lt_of_le_of_ne a.normSq_nonneg (Ne.symm h)
  have hn : 0 < a.norm := a.norm_pos hpos
  unfold normalize
  rw [norm_smul, abs_of_nonneg (div_nonneg zero_le_one a.norm_nonneg)]
  field_simp

theorem dot_cauchy (a b : Vec3) : (a.dot b) ^ 2 ≤ a.normSq * b.normSq := by
  unfold dot normSq
  nlinarith [sq_nonneg (a.x * b.y - a.y * b.x), sq_nonneg (a.x * b.z - a.z * b.x),
    sq_nonneg (a.y * b.z - a.z * b.y)]

theorem normSq_add_smul_ne_zero (a u : Vec3) (s : ℝ) (ha : a.norm = 1) (hu : u.norm = 1)
    (hs0 : 0 ≤ s) (hs1 : s < 1) : (a.add (u.smul s)).normSq ≠ 0 := by
  have haq : a.normSq = 1 := (a.norm_eq_one_iff).mp ha
  have huq : u.normSq = 1 := (u.norm_eq_one_iff).mp hu
  have hcs := a.dot_cauchy u
  rw [haq, huq] at hcs
  have hexp : (a.add (u.smul s)).normSq = a.normSq + 2 * s * (a.dot u) + s * s * u.normSq := by
    unfold normSq add smul dot; ring
  rw [hexp, haq, huq]
  have hd : -1 ≤ a.dot u := by nlinarith [sq_nonneg (a.dot u + 1)]
  nlinarith

theorem normSq_sub_comm (a b : Vec3) : (a.sub b).normSq = (b.sub a).normSq := by
  unfold normSq sub; ring

theorem dist_comm' (a b : Vec3) : a.dist b = b.dist a := by
  unfold dist norm; rw [normSq_sub_comm]

theorem dist_nonneg' (a b : Vec3) : 0 ≤ a.dist b := Real.sqrt_nonneg _

end Vec3

/-! ### Raymarch loop branch equations and step counting -/

namespace World

theorem raymarchAux_zero (w : World) (p : Photon) :
    w.raymarchAux 0 p = (⟨0, ⟨0, 0⟩, p⟩, 0) := rfl

theorem raymarchAux_hit (w : World) (n : ℕ) (p : Photon) (uv : Vec2)
    (hc : w.camera.collision p = some uv) :
    w.raymarchAux (n + 1) p = (⟨1, uv, p⟩, 1) := by
  simp only [raymarchAux, hc]

theorem raymarchAux_escape (w : World) (n : ℕ) (p : Photon)
    (hc : w.camera.collision p = none)
    (hd : p.advance.pos.dist w.camera.pos > ((n : ℝ) + 1) * timeScale) :
    w.raymarchAux (n + 1) p = (⟨0, ⟨0, 0⟩, p.advance⟩, 1) := by
  simp only [raymarchAux, hc]
  rw [if_pos hd]

theorem raymarchAux_capture (w : World) (n : ℕ) (p : Photon)
    (hc : w.camera.collision p = none)
    (hd : ¬ p.advance.pos.dist w.camera.pos > ((n : ℝ) + 1) * timeScale)
    (hbh : p.advance.pos.dist w.black_hole_pos < w.schwarzschild_radius) :
    w.raymarchAux (n + 1) p = (⟨0, ⟨0, 0⟩, p.advance⟩, 1) := by
  simp only [raymarchAux, hc]
  rw [if_neg hd, if_pos hbh]

theorem raymarchAux_continue (w : World) (n : ℕ) (p : Photon)
    (hc : w.camera.collision p = none)
    (hd : ¬ p.advance.pos.dist w.camera.pos > ((n : ℝ) + 1) * timeScale)
    (hbh : ¬ p.advance.pos.dist w.black_hole_pos < w.schwarzschild_radius) :
    w.raymarchAux (n + 1) p =
      ((w.raymarchAux n (w.nextPhoton p)).1, (w.raymarchAux n (w.nextPhoton p)).2 + 1) := by
  simp only [raymarchAux, hc]
  rw [if_neg hd, if_neg hbh]

theorem raymarchAux_steps_le (w : World) : ∀ (n : ℕ) (p : Photon),
    (w.raymarchAux n p).2 ≤ n := by
  intro n
  induction n with
  | zero => intro p; simp [raymarchAux_zero]
  | succ n ih =>
    intro p
    cases hc : w.camera.collision p with
    | some uv => rw [raymarchAux_hit w n p uv hc]; omega
    | none =>
      by_cases hd : p.advance.pos.dist w.camera.pos > ((n : ℝ) + 1) * timeScale
      · rw [raymarchAux_escape w n p hc hd]; omega
      · by_cases hbh : p.advance.pos.dist w.black_hole_pos < w.schwarzschild_radius
        · rw [raymarchAux_capture w n p hc hd hbh]; omega
        · rw [raymarchAux_continue w n p hc hd hbh]
          have := ih (w.nextPhoton p)
          omega

theorem raymarchAux_steps_pos (w : World) (n : ℕ) (p : Photon) :
    1 ≤ (w.raymarchAux (n + 1) p).2 := by
  cases hc : w.camera.collision p with
  | some uv => rw [raymarchAux_hit w n p uv hc]
  | none =>
    by_cases hd : p.advance.pos.dist w.camera.pos > ((n : ℝ) + 1) * timeScale
    · rw [raymarchAux_escape w n p hc hd]
    · by_cases hbh : p.advance.pos.dist w.black_hole_pos < w.schwarzschild_radius
      · rw [raymarchAux_capture w n p hc hd hbh]
      · rw [raymarchAux_continue w n p hc hd hbh]; omega

theorem raymarchAux_wavelength (w : World) : ∀ (n : ℕ) (p : Photon),
    ((w.raymarchAux n p).1).photon.wavelength = p.wavelength := by
  intro n
  induction n with
  | zero => intro p; rfl
  | succ n ih =>
    intro p
    cases hc : w.camera.collision p with
    | some uv => rw [raymarchAux_hit w n p uv hc]
    | none =>
      by_cases hd : p.advance.pos.dist w.camera.pos > ((n : ℝ) + 1) * timeScale
      · rw [raymarchAux_escape w n p hc hd]; rfl
      · by_cases hbh : p.advance.pos.dist w.black_hole_pos < w.schwarzschild_radius
        · rw [raymarchAux_capture w n p hc hd hbh]; rfl
        · rw [raymarchAux_continue w n p hc hd hbh]
          exact ih (w.nextPhoton p)

end World

/-! ### Blend branch equations -/

/-- Evaluate `round` at a concrete value via the floor characterization. -/
theorem round_eq_of (a : ℝ) (z : ℤ) (h1 : (z : ℝ) ≤ a + 1 / 2) (h2 : a + 1 / 2 < (z : ℝ) + 1) :
    round a = z := by
  rw [round_eq]
  exact Int.floor_eq_iff.mpr ⟨h1, h2⟩

namespace Screen

theorem blendOne_miss (s : Screen) (ins : Intersection) (h : ins.intersection = 0) :
    s.blendOne ins = some s := by
  unfold blendOne
  rw [if_pos h]

theorem blendOne_oob (s : Screen) (ins : Intersection) (h0 : ins.intersection ≠ 0)
    (h : s.width ≤ s.targetX ins.pos ∨ s.height ≤ s.targetY ins.pos) :
    s.blendOne ins = some s := by
  unfold blendOne
  rw [if_neg h0, if_pos h]

theorem blendOne_accept (s : Screen) (ins : Intersection) (h0 : ins.intersection ≠ 0)
    (hx : s.targetX ins.pos < s.width) (hy : s.targetY ins.pos < s.height) :
    s.blendOne ins = some
      { s with
        image := Function.update s.image (s.targetX ins.pos, s.targetY ins.pos)
          (s.blendedColor ins (s.targetX ins.pos, s.targetY ins.pos)),
        sampBuf := Function.update s.sampBuf (s.targetX ins.pos, s.targetY ins.pos)
          (s.sampBuf (s.targetX ins.pos, s.targetY ins.pos) + 1) } := by
  unfold blendOne sampGet
  rw [if_neg h0, if_neg (by omega), if_pos (by exact ⟨hx, hy⟩)]

theorem targetX_congr (s t : Screen) (pos : Vec2) (h : t.width = s.width) :
    t.targetX pos = s.targetX pos := by
  unfold targetX
  rw [h]

theorem targetY_congr (s t : Screen) (pos : Vec2) (h : t.height = s.height) :
    t.targetY pos = s.targetY pos := by
  unfold targetY
  rw [h]

theorem blendRays_nil (s : Screen) : Screen.blendRays s [] = some s := rfl

theorem blendRays_cons_some (s s2 : Screen) (ins : Intersection) (l : List Intersection)
    (h : s.blendOne ins = some s2) :
    Screen.blendRays s (ins :: l) = Screen.blendRays s2 l := by
  simp only [Screen.blendRays, h]

/-- Propositional description of an accepted blend: the lookup succeeds,
the target pixel takes the running-mean color and its sample count grows
by one, and every other pixel is untouched. -/
theorem blendOne_accept_spec (s : Screen) (ins : Intersection) (h0 : ins.intersection ≠ 0)
    (hx : s.targetX ins.pos < s.width) (hy : s.targetY ins.pos < s.height) :
    ∃ s2 : Screen, s.blendOne ins = some s2 ∧
      s2.width = s.width ∧ s2.height = s.height ∧
      s2.sampBuf (s.targetX ins.pos, s.targetY ins.pos) =
        s.sampBuf (s.targetX ins.pos, s.targetY ins.pos) + 1 ∧
      s2.image (s.targetX ins.pos, s.targetY ins.pos) =
        s.blendedColor ins (s.targetX ins.pos, s.targetY ins.pos) ∧
      ∀ q : ℕ × ℕ, q ≠ (s.targetX ins.pos, s.targetY ins.pos) →
        s2.image q = s.image q ∧ s2.sampBuf q = s.sampBuf q := by
  refine ⟨_, s.blendOne_accept ins h0 hx hy, rfl, rfl,
    Function.update_same _ _ _, Function.update_same _ _ _, ?_⟩
  intro q hq
  exact ⟨Function.update_noteq hq _ _, Function.update_noteq hq _ _⟩

end Screen

/-! ### Claim C9 -/

/-- C9: for every input photon, the photon carried in the `Intersection`
returned by `raymarch` has the same wavelength as the input photon; the
integrator mutates only position and direction. -/
theorem c9_wavelength_preserved (w : World) (p : Photon) :
    (w.raymarch p).photon.wavelength = p.wavelength :=
  w.raymarchAux_wavelength World.ITERATIONS p

/-! ### Claim C7 -/

/-- C7: `raymarch` terminates within at most `ITERATIONS = 600` loop
iterations of the integrator, and a run whose budget reaches zero without
a hit or capture finalizes as a `Miss` (`intersection = 0`) carrying the
final photon; the model is a total function, so there is no
non-terminating or error outcome. -/
theorem c7_raymarch_terminates (w : World) (p : Photon) :
    w.raymarchSteps p ≤ World.ITERATIONS ∧
      ∀ q : Photon, w.raymarchAux 0 q = (⟨0, ⟨0, 0⟩, q⟩, 0) :=
  ⟨w.raymarchAux_steps_le World.ITERATIONS p, fun q => w.raymarchAux_zero q⟩

/-! ### Claim C4 -/

/-- C4: `schwarzschild_radius` equals `2 * G * mass / c²` exactly with
`G = 6.67e-11`, `c = 3e8`, and is strictly increasing as a function of
the mass. -/
theorem c4_schwarzschild_exact_mono (w : World) (m1 m2 : ℝ) (h : m1 < m2) :
    w.schwarzschild_radius = 2 * 6.67e-11 * w.black_hole_mass / (3e8 * 3e8) ∧
    ({ w with black_hole_mass := m1 } : World).schwarzschild_radius <
      ({ w with black_hole_mass := m2 } : World).schwarzschild_radius := by
  constructor
  · unfold World.schwarzschild_radius World.g World.c
    norm_num
  · unfold World.schwarzschild_radius World.g World.c
    simp only
    rw [div_lt_div_iff₀ (by norm_num) (by norm_num)]
    nlinarith

/-- Witness for C4 at the concrete world of `World::new` and masses 1 < 2. -/
theorem c4_witness :
    stdWorld.schwarzschild_radius =
        2 * 6.67e-11 * stdWorld.black_hole_mass / (3e8 * 3e8) ∧
    ({ stdWorld with black_hole_mass := 1 } : World).schwarzschild_radius <
      ({ stdWorld with black_hole_mass := 2 } : World).schwarzschild_radius :=
  c4_schwarzschild_exact_mono stdWorld 1 2 (by norm_num)

/-! ### Claim C3 -/

/-- C3: whenever the camera collision test accepts a photon, the returned
normalized sensor coordinate equals
`(0.5 - x / sensor_width, 0.5 - y / sensor_height)` and both components
lie in `[0, 1]`. -/
theorem c3_collision_uv_range (c : Camera) (p : Photon) (uv : Vec2)
    (h : c.collision p = some uv) :
    uv.x = 0.5 - c.projX p / Camera.sensorWidth ∧
    uv.y = 0.5 - c.projY p / c.sensorHeight ∧
    0 ≤ uv.x ∧ uv.x ≤ 1 ∧ 0 ≤ uv.y ∧ uv.y ≤ 1 := by
  unfold Camera.collision at h
  split_ifs at h with h1 h2 h3 h4
  push_neg at h4
  obtain ⟨hx, hy⟩ := h4
  have huv : uv = ⟨-(c.projX p) / Camera.sensorWidth + 0.5,
      -(c.projY p) / c.sensorHeight + 0.5⟩ := (Option.some.inj h).symm
  subst huv
  have hsw : Camera.sensorWidth = 5 := by norm_num [Camera.sensorWidth]
  rw [hsw] at hx ⊢
  obtain ⟨hx1, hx2⟩ := abs_le.mp hx
  refine ⟨by ring, by ring, by linarith, by linarith, ?_, ?_⟩
  all_goals {
    by_cases hsh : 0 < c.sensorHeight
    · obtain ⟨hy1, hy2⟩ := abs_le.mp hy
      have h1 : c.projY p / c.sensorHeight ≤ 1 / 2 :=
        (div_le_iff₀ hsh).mpr (by linarith)
      have h2 : -(1 / 2) ≤ c.projY p / c.sensorHeight :=
        (le_div_iff₀ hsh).mpr (by linarith)
      simp only [neg_div]
      linarith
    · push_neg at hsh
      have h0 : |c.projY p| ≤ 0 := le_trans hy (by linarith)
      have hzero : c.projY p = 0 := abs_eq_zero.mp (le_antisymm h0 (abs_nonneg _))
      simp only [hzero, neg_zero, zero_div]
      norm_num
  }

/-- Witness for C3: an on-axis photon entering the aperture centre is
accepted with sensor coordinate `(0.5, 0.5)`. -/
theorem c3_witness :
    0 ≤ (Vec2.mk 0.5 0.5).x ∧ (Vec2.mk 0.5 0.5).x ≤ 1 ∧
    0 ≤ (Vec2.mk 0.5 0.5).y ∧ (Vec2.mk 0.5 0.5).y ≤ 1 := by
  have hc : axisCam.collision axisPhoton = some ⟨0.5, 0.5⟩ := by
    norm_num [Camera.collision, Camera.mapped, Camera.mappedDir, Camera.projX, Camera.projY,
      Camera.sensorHeight, Camera.sensorWidth, Camera.EPSILON, Camera.V_EPSILON,
      axisCam, axisPhoton, Vec3.sub, Vec2.mk.injEq]
  obtain ⟨-, -, h1, h2, h3, h4⟩ := c3_collision_uv_range axisCam axisPhoton ⟨0.5, 0.5⟩ hc
  exact ⟨h1, h2, h3, h4⟩

/-! ### Claim C10 -/

/-- Rounding a value of `[0, 1]` scaled by a natural number stays within
that natural number after the saturating cast. -/
theorem round_unit_scale_le (t : ℝ) (_ht0 : 0 ≤ t) (ht1 : t ≤ 1) (n : ℕ) :
    (round (t * (n : ℝ))).toNat ≤ n := by
  rw [Int.toNat_le, round_eq]
  have h1 : t * (n : ℝ) ≤ (n : ℝ) := by nlinarith [Nat.cast_nonneg (α := ℝ) n]
  have h2 : ⌊t * (n : ℝ) + 1 / 2⌋ < (n : ℤ) + 1 := by
    rw [Int.floor_lt]
    push_cast
    linarith
  omega

/-- C10: for a sensor position in `[0,1] × [0,1]` and a screen of positive
dimensions, the pixel indices computed in `blend_rays` satisfy
`x ≤ width - 1` and `y ≤ height - 1`, so the out-of-bounds discard branch
cannot fire and the sample-buffer lookup cannot fail. -/
theorem c10_indices_in_bounds (s : Screen) (pos : Vec2)
    (hw : 1 ≤ s.width) (hh : 1 ≤ s.height) (hx0 : 0 ≤ pos.x) (hx1 : pos.x ≤ 1)
    (hy0 : 0 ≤ pos.y) (hy1 : pos.y ≤ 1) :
    s.targetX pos ≤ s.width - 1 ∧ s.targetY pos ≤ s.height - 1 ∧
      s.targetX pos < s.width ∧ s.targetY pos < s.height := by
  have hx := round_unit_scale_le pos.x hx0 hx1 (s.width - 1)
  have hy := round_unit_scale_le pos.y hy0 hy1 (s.height - 1)
  unfold Screen.targetX Screen.targetY
  exact ⟨hx, hy, by omega, by omega⟩

/-- Witness for C10 on a 3 × 2 screen with the border coordinate `(1, 0.5)`. -/
theorem c10_witness :
    (Screen.new 3 2).targetX ⟨1, 0.5⟩ ≤ (Screen.new 3 2).width - 1 ∧
    (Screen.new 3 2).targetY ⟨1, 0.5⟩ ≤ (Screen.new 3 2).height - 1 ∧
    (Screen.new 3 2).targetX ⟨1, 0.5⟩ < (Screen.new 3 2).width ∧
    (Screen.new 3 2).targetY ⟨1, 0.5⟩ < (Screen.new 3 2).height :=
  c10_indices_in_bounds (Screen.new 3 2) ⟨1, 0.5⟩ (by norm_num [Screen.new])
    (by norm_num [Screen.new]) (by norm_num) (by norm_num) (by norm_num) (by norm_num)

/-! ### Claim C6 -/

/-- C6: in each raymarch step, after the position update, if the photon's
distance to the camera exceeds `remaining_iterations * TIME_SCALE`
(with `timeScale = 0.015` and `n + 1` iterations remaining), the trace
transitions to the terminal Missed-Escaped state and returns a Miss
carrying the moved photon. -/
theorem c6_escape_step_miss (w : World) (n : ℕ) (p : Photon)
    (hc : w.camera.collision p = none)
    (hd : p.advance.pos.dist w.camera.pos > ((n : ℝ) + 1) * World.timeScale) :
    w.raymarchAux (n + 1) p = (⟨0, ⟨0, 0⟩, p.advance⟩, 1) :=
  w.raymarchAux_escape n p hc hd

/-- Witness for C6: a photon 10 units out along z, flying away, escapes on
the last budgeted iteration. -/
theorem c6_witness :
    stdWorld.raymarchAux (0 + 1) farPhoton = (⟨0, ⟨0, 0⟩, farPhoton.advance⟩, 1) := by
  apply c6_escape_step_miss
  · norm_num [Camera.collision, Camera.mapped, stdWorld, World.new, farPhoton, Vec3.sub,
      Camera.EPSILON]
  · unfold stdWorld World.new farPhoton Photon.advance World.timeScale
    unfold Vec3.dist Vec3.norm Vec3.normSq Vec3.sub Vec3.add Vec3.smul
    simp only
    rw [gt_iff_lt, show (((0 : ℕ) : ℝ) + 1) * 0.015 = 0.015 by norm_num,
      Real.lt_sqrt (by norm_num)]
    norm_num

/-! ### Claim C2 -/

/-- C2 counterexample: a photon starting at distance `0.29` from the
gravity source — strictly inside the Schwarzschild radius
`667/2250 ≈ 0.2964` — but moving radially outward is not captured within
the first integration step: the loop keeps traveling for at least a
second iteration instead of returning a Miss after one. -/
theorem c2_counterexample :
    insidePhoton.pos.dist stdWorld.black_hole_pos < stdWorld.schwarzschild_radius ∧
    2 ≤ stdWorld.raymarchSteps insidePhoton := by
  have hr : stdWorld.schwarzschild_radius = 667 / 2250 := by
    norm_num [stdWorld, World.new, World.schwarzschild_radius, World.g, World.c]
  constructor
  · rw [hr]
    unfold insidePhoton stdWorld World.new Vec3.dist Vec3.norm Vec3.normSq Vec3.sub
    simp only
    rw [show (0.29 - 0) * (0.29 - 0) + (0 - 0) * (0 - 0) + (0 - 0) * (0 - 0) =
        (0.29 : ℝ) ^ 2 by norm_num, Real.sqrt_sq (by norm_num)]
    norm_num
  · have hc : stdWorld.camera.collision insidePhoton = none := by
      norm_num [Camera.collision, Camera.mapped, stdWorld, World.new, insidePhoton, Vec3.sub,
        Camera.EPSILON]
    have hd : ¬ insidePhoton.advance.pos.dist stdWorld.camera.pos >
        (((599 : ℕ) : ℝ) + 1) * World.timeScale := by
      rw [not_lt]
      unfold stdWorld World.new insidePhoton Photon.advance World.timeScale
      unfold Vec3.dist Vec3.norm Vec3.normSq Vec3.sub Vec3.add Vec3.smul
      simp only
      rw [show (((599 : ℕ) : ℝ) + 1) * 0.015 = 9 by norm_num]
      rw [show (9 : ℝ) = Real.sqrt (9 ^ 2) from (Real.sqrt_sq (by norm_num)).symm]
      apply Real.sqrt_le_sqrt
      norm_num
    have hbh : ¬ insidePhoton.advance.pos.dist stdWorld.black_hole_pos <
        stdWorld.schwarzschild_radius := by
      rw [not_lt, hr]
      unfold stdWorld World.new insidePhoton Photon.advance World.timeScale
      unfold Vec3.dist Vec3.norm Vec3.normSq Vec3.sub Vec3.add Vec3.smul
      simp only
      rw [show (0.29 + 1 * 0.015 - 0) * (0.29 + 1 * 0.015 - 0) + (0 + 0 * 0.015 - 0) *
          (0 + 0 * 0.015 - 0) + (0 + 0 * 0.015 - 0) * (0 + 0 * 0.015 - 0) =
          (0.305 : ℝ) ^ 2 by norm_num, Real.sqrt_sq (by norm_num)]
      norm_num
    unfold World.raymarchSteps
    rw [show World.ITERATIONS = 599 + 1 from rfl,
      stdWorld.raymarchAux_continue 599 insidePhoton hc hd hbh]
    have hpos := stdWorld.raymarchAux_steps_pos 598 (stdWorld.nextPhoton insidePhoton)
    norm_num at hpos
    omega

/-- C2 (amended): a photon that fails the camera test, does not trigger
the early-exit distance check, and whose position after the first
position update lies strictly inside the Schwarzschild radius, yields a
horizon-capture Miss in exactly one integration step of `raymarch`. -/
theorem c2_capture_first_step (w : World) (p : Photon)
    (hc : w.camera.collision p = none)
    (hd : ¬ p.advance.pos.dist w.camera.pos > (600 : ℝ) * World.timeScale)
    (hbh : p.advance.pos.dist w.black_hole_pos < w.schwarzschild_radius) :
    w.raymarch p = ⟨0, ⟨0, 0⟩, p.advance⟩ ∧ w.raymarchSteps p = 1 := by
  have hd' : ¬ p.advance.pos.dist w.camera.pos > (((599 : ℕ) : ℝ) + 1) * World.timeScale := by
    rw [show (((599 : ℕ) : ℝ) + 1) = (600 : ℝ) by norm_num]
    exact hd
  unfold World.raymarch World.raymarchSteps
  rw [show World.ITERATIONS = 599 + 1 from rfl, w.raymarchAux_capture 599 p hc hd' hbh]
  exact ⟨rfl, rfl⟩

/-- Witness for C2 (amended): a photon at `(0, 0, 0.1)` heading in `-z`
steps to `(0, 0, 0.085)`, inside the horizon, and is captured at once. -/
theorem c2_witness :
    stdWorld.raymarch capturedPhoton = ⟨0, ⟨0, 0⟩, capturedPhoton.advance⟩ ∧
    stdWorld.raymarchSteps capturedPhoton = 1 := by
  apply c2_capture_first_step
  · norm_num [Camera.collision, Camera.mapped, stdWorld, World.new, capturedPhoton, Vec3.sub,
      Camera.EPSILON]
  · rw [not_lt]
    unfold stdWorld World.new capturedPhoton Photon.advance World.timeScale
    unfold Vec3.dist Vec3.norm Vec3.normSq Vec3.sub Vec3.add Vec3.smul
    simp only
    rw [show (600 : ℝ) * 0.015 = 9 by norm_num]
    rw [show (9 : ℝ) = Real.sqrt (9 ^ 2) from (Real.sqrt_sq (by norm_num)).symm]
    apply Real.sqrt_le_sqrt
    norm_num
  · have hr : stdWorld.schwarzschild_radius = 667 / 2250 := by
      norm_num [stdWorld, World.new, World.schwarzschild_radius, World.g, World.c]
    rw [hr]
    unfold stdWorld World.new capturedPhoton Photon.advance World.timeScale
    unfold Vec3.dist Vec3.norm Vec3.normSq Vec3.sub Vec3.add Vec3.smul
    simp only
    rw [show (0 + 0 * 0.015 - 0) * (0 + 0 * 0.015 - 0) + (0 + 0 * 0.015 - 0) *
        (0 + 0 * 0.015 - 0) + (0.1 + -1 * 0.015 - 0) * (0.1 + -1 * 0.015 - 0) =
        (0.085 : ℝ) ^ 2 by norm_num, Real.sqrt_sq (by norm_num)]
    norm_num

/-! ### Claim C5 -/

theorem advance_dir (p : Photon) : p.advance.dir = p.dir := rfl

/-- In the world of `World::new`, the in-loop directional update followed
by renormalization returns a unit direction whenever the input direction
is unit and the photon is outside the horizon (the guard under which the
update runs). -/
theorem nextPhoton_dir_norm (rot : Vec3 → Vec3) (sw sh : ℝ) (p : Photon)
    (hdir : p.dir.norm = 1)
    (hbh : ¬ p.advance.pos.dist (World.new rot sw sh).black_hole_pos <
        (World.new rot sw sh).schwarzschild_radius) :
    ((World.new rot sw sh).nextPhoton p).dir.norm = 1 := by
  rw [not_lt] at hbh
  have hr : (World.new rot sw sh).schwarzschild_radius = 667 / 2250 := by
    norm_num [World.new, World.schwarzschild_radius, World.g, World.c]
  rw [hr] at hbh
  have hd0 : 0 < p.advance.pos.dist (World.new rot sw sh).black_hole_pos :=
    lt_of_lt_of_le (by norm_num) hbh
  have hq0 : 0 < p.advance.pos.dist (World.new rot sw sh).black_hole_pos *
      p.advance.pos.dist (World.new rot sw sh).black_hole_pos := mul_pos hd0 hd0
  have hsub : ((World.new rot sw sh).black_hole_pos.sub p.advance.pos).normSq =
      p.advance.pos.dist (World.new rot sw sh).black_hole_pos *
        p.advance.pos.dist (World.new rot sw sh).black_hole_pos := by
    rw [Vec3.normSq_sub_comm]
    unfold Vec3.dist Vec3.norm
    exact (Real.mul_self_sqrt (Vec3.normSq_nonneg _)).symm
  have hu : ((World.new rot sw sh).black_hole_pos.sub p.advance.pos).normalize.norm = 1 :=
    Vec3.normalize_norm _ (by rw [hsub]; exact hq0.ne')
  have hg : (World.new rot sw sh).g = 6.67e-11 := rfl
  have hm : (World.new rot sw sh).black_hole_mass = 2e26 := rfl
  have hc2 : (World.new rot sw sh).c_squared = 3e8 * 3e8 := rfl
  have hts : World.timeScale = 0.015 := rfl
  have hs_eq : (World.new rot sw sh).g * (World.new rot sw sh).black_hole_mass /
      (p.advance.pos.dist (World.new rot sw sh).black_hole_pos *
        p.advance.pos.dist (World.new rot sw sh).black_hole_pos) /
      (World.new rot sw sh).c_squared * World.timeScale =
      667 / 300000 / (p.advance.pos.dist (World.new rot sw sh).black_hole_pos *
        p.advance.pos.dist (World.new rot sw sh).black_hole_pos) := by
    rw [hg, hm, hc2, hts]
    field_simp
    ring
  have hs0 : 0 ≤ (World.new rot sw sh).g * (World.new rot sw sh).black_hole_mass /
      (p.advance.pos.dist (World.new rot sw sh).black_hole_pos *
        p.advance.pos.dist (World.new rot sw sh).black_hole_pos) /
      (World.new rot sw sh).c_squared * World.timeScale := by
    rw [hs_eq]
    exact div_nonneg (by norm_num) hq0.le
  have hs1 : (World.new rot sw sh).g * (World.new rot sw sh).black_hole_mass /
      (p.advance.pos.dist (World.new rot sw sh).black_hole_pos *
        p.advance.pos.dist (World.new rot sw sh).black_hole_pos) /
      (World.new rot sw sh).c_squared * World.timeScale < 1 := by
    rw [hs_eq, div_lt_one hq0]
    nlinarith [hbh, hd0]
  unfold World.nextPhoton
  simp only [advance_dir]
  exact Vec3.normalize_norm _
    (Vec3.normSq_add_smul_ne_zero p.dir _ _ hdir hu hs0 hs1)

/-- C5: in the world of `World::new` (arbitrary rotation slot and screen
aspect), a photon whose direction is unit length yields, after any number
of integration steps of the raymarch loop, a photon whose direction norm
is exactly 1, in particular within `1e-4` of 1: the direction is
renormalized after every directional update. -/
theorem c5_direction_unit_norm (rot : Vec3 → Vec3) (sw sh : ℝ) :
    ∀ (n : ℕ) (p : Photon), p.dir.norm = 1 →
      ((World.new rot sw sh).raymarchAux n p).1.photon.dir.norm = 1 ∧
        |((World.new rot sw sh).raymarchAux n p).1.photon.dir.norm - 1| ≤ 1e-4 := by
  have habs : ∀ x : ℝ, x = 1 → x = 1 ∧ |x - 1| ≤ 1e-4 := by
    intro x hx
    rw [hx]
    norm_num
  intro n
  induction n with
  | zero =>
    intro p h
    rw [World.raymarchAux_zero]
    exact habs _ h
  | succ n ih =>
    intro p h
    cases hc : (World.new rot sw sh).camera.collision p with
    | some uv =>
      rw [(World.new rot sw sh).raymarchAux_hit n p uv hc]
      exact habs _ h
    | none =>
      by_cases hd : p.advance.pos.dist (World.new rot sw sh).camera.pos >
          ((n : ℝ) + 1) * World.timeScale
      · rw [(World.new rot sw sh).raymarchAux_escape n p hc hd]
        exact habs _ h
      · by_cases hbh : p.advance.pos.dist (World.new rot sw sh).black_hole_pos <
            (World.new rot sw sh).schwarzschild_radius
        · rw [(World.new rot sw sh).raymarchAux_capture n p hc hd hbh]
          exact habs _ h
        · rw [(World.new rot sw sh).raymarchAux_continue n p hc hd hbh]
          exact ih ((World.new rot sw sh).nextPhoton p)
            (nextPhoton_dir_norm rot sw sh p h hbh)

/-- Witness for C5: a concrete unit-direction photon after one step. -/
theorem c5_witness :
    ((World.new id 1 1).raymarchAux 1 unitPhoton).1.photon.dir.norm = 1 ∧
      |((World.new id 1 1).raymarchAux 1 unitPhoton).1.photon.dir.norm - 1| ≤ 1e-4 := by
  apply c5_direction_unit_norm id 1 1 1 unitPhoton
  unfold unitPhoton Vec3.norm Vec3.normSq
  simp only
  rw [show (0 : ℝ) * 0 + 0 * 0 + 1 * 1 = 1 by norm_num]
  exact Real.sqrt_one

/-! ### Claim C1 -/

/-- Wavelength 580 nm maps to RGB `(1, 1, 0)` (the gamma power fixes 0
and 1). -/
theorem wavelengthToRgb_at_580 (p : Photon) (h : p.wavelength = 580) :
    p.wavelengthToRgb = ⟨1, 1, 0⟩ := by
  unfold Photon.wavelengthToRgb
  rw [h]
  norm_num [Real.one_rpow, Real.zero_rpow, Vec3.mk.injEq]

/-- A pixel that already holds the hit's RGB color (with alpha 1) keeps
it under any further number of blends of the same hit: the running-mean
update `mix * c + (1 - mix) * c = c` is a fixed point. -/
theorem blendRays_replicate_keep (ins : Intersection) (h0 : ¬ ins.intersection = 0) :
    ∀ (j : ℕ) (s : Screen) (x y : ℕ),
      x = s.targetX ins.pos → y = s.targetY ins.pos → x < s.width → y < s.height →
      s.image (x, y) =
        ⟨ins.photon.wavelengthToRgb.x, ins.photon.wavelengthToRgb.y,
          ins.photon.wavelengthToRgb.z, 1⟩ →
      ∃ s' : Screen, Screen.blendRays s (List.replicate j ins) = some s' ∧
        s'.image (x, y) =
          ⟨ins.photon.wavelengthToRgb.x, ins.photon.wavelengthToRgb.y,
            ins.photon.wavelengthToRgb.z, 1⟩ ∧
        s'.width = s.width ∧ s'.height = s.height := by
  intro j
  induction j with
  | zero =>
    intro s x y _ _ _ _ him
    exact ⟨s, Screen.blendRays_nil s, him, rfl, rfl⟩
  | succ j ih =>
    intro s x y hx hy hxw hyh him
    subst hx
    subst hy
    obtain ⟨s2, hbl, hw, hh, _, himg2, _⟩ := Screen.blendOne_accept_spec s ins h0 hxw hyh
    rw [List.replicate_succ, Screen.blendRays_cons_some s s2 ins _ hbl]
    have htx : s2.targetX ins.pos = s.targetX ins.pos := Screen.targetX_congr s s2 ins.pos hw
    have hty : s2.targetY ins.pos = s.targetY ins.pos := Screen.targetY_congr s s2 ins.pos hh
    have him2 : s2.image (s.targetX ins.pos, s.targetY ins.pos) =
        ⟨ins.photon.wavelengthToRgb.x, ins.photon.wavelengthToRgb.y,
          ins.photon.wavelengthToRgb.z, 1⟩ := by
      rw [himg2]
      unfold Screen.blendedColor
      rw [him]
      simp only [Color.mk.injEq]
      exact ⟨by ring, by ring, by ring, trivial⟩
    obtain ⟨s', hchain, him', hw', hh'⟩ := ih s2 (s.targetX ins.pos) (s.targetY ins.pos)
      htx.symm hty.symm (by rw [hw]; exact hxw) (by rw [hh]; exact hyh) him2
    exact ⟨s', hchain, him', hw'.trans hw, hh'.trans hh⟩

/-- C1 (amended): blending `k ≥ 1` hits of one identical color into a
fresh pixel (`sample_count = 1`) yields exactly that color — the first
blend uses `mix = 1 / 1 = 1` and overwrites the pixel, so the result is
`C` for every `k ≥ 1` (hence trivially converges to `C`); for `k = 1`
the final color is `C`, not `0.5 * C`. -/
theorem c1_blend_constant_color (s : Screen) (ins : Intersection) (k : ℕ) (hk : 1 ≤ k)
    (h0 : ¬ ins.intersection = 0)
    (hx : s.targetX ins.pos < s.width) (hy : s.targetY ins.pos < s.height)
    (hsamp : s.sampBuf (s.targetX ins.pos, s.targetY ins.pos) = 1)
    (_hcol : (s.image (s.targetX ins.pos, s.targetY ins.pos)).r = 0 ∧
      (s.image (s.targetX ins.pos, s.targetY ins.pos)).g = 0 ∧
      (s.image (s.targetX ins.pos, s.targetY ins.pos)).b = 0) :
    ∃ s' : Screen, Screen.blendRays s (List.replicate k ins) = some s' ∧
      s'.image (s.targetX ins.pos, s.targetY ins.pos) =
        ⟨ins.photon.wavelengthToRgb.x, ins.photon.wavelengthToRgb.y,
          ins.photon.wavelengthToRgb.z, 1⟩ := by
  obtain ⟨j, rfl⟩ : ∃ j, k = j + 1 := ⟨k - 1, by omega⟩
  obtain ⟨s2, hbl, hw, hh, _, himg2, _⟩ := Screen.blendOne_accept_spec s ins h0 hx hy
  rw [List.replicate_succ, Screen.blendRays_cons_some s s2 ins _ hbl]
  have htx : s2.targetX ins.pos = s.targetX ins.pos := Screen.targetX_congr s s2 ins.pos hw
  have hty : s2.targetY ins.pos = s.targetY ins.pos := Screen.targetY_congr s s2 ins.pos hh
  have him2 : s2.image (s.targetX ins.pos, s.targetY ins.pos) =
      ⟨ins.photon.wavelengthToRgb.x, ins.photon.wavelengthToRgb.y,
        ins.photon.wavelengthToRgb.z, 1⟩ := by
    rw [himg2]
    unfold Screen.blendedColor
    rw [hsamp]
    simp only [Color.mk.injEq]
    norm_num
  obtain ⟨s', hchain, him', _, _⟩ := blendRays_replicate_keep ins h0 j s2
    (s.targetX ins.pos) (s.targetY ins.pos) htx.symm hty.symm
    (by rw [hw]; exact hx) (by rw [hh]; exact hy) him2
  exact ⟨s', hchain, him'⟩

/-- Witness for C1 (amended): one yellow hit on a fresh 1 × 1 screen. -/
theorem c1_witness :
    ∃ s' : Screen,
      Screen.blendRays (Screen.new 1 1) (List.replicate 1 centreHit) = some s' ∧
      s'.image ((Screen.new 1 1).targetX centreHit.pos,
          (Screen.new 1 1).targetY centreHit.pos) =
        ⟨centreHit.photon.wavelengthToRgb.x, centreHit.photon.wavelengthToRgb.y,
          centreHit.photon.wavelengthToRgb.z, 1⟩ := by
  apply c1_blend_constant_color (Screen.new 1 1) centreHit 1 le_rfl
  · norm_num [centreHit]
  · norm_num [Screen.targetX, Screen.new, centreHit]
  · norm_num [Screen.targetY, Screen.new, centreHit]
  · rfl
  · exact ⟨rfl, rfl, rfl⟩

/-- C1 counterexample: for `k = 1` the blended color is the full hit
color, not half of it — with wavelength 580 nm (RGB x-channel 1) the
resulting red channel is 1 while the claim predicts `0.5 * 1`. -/
theorem c1_counterexample :
    (Screen.blendRays (Screen.new 1 1) [centreHit]).map
        (fun s => (s.image ((Screen.new 1 1).targetX centreHit.pos,
          (Screen.new 1 1).targetY centreHit.pos)).r) ≠
      some (0.5 * centreHit.photon.wavelengthToRgb.x) := by
  have hx : (Screen.new 1 1).targetX centreHit.pos < (Screen.new 1 1).width := by
    norm_num [Screen.targetX, Screen.new, centreHit]
  have hy : (Screen.new 1 1).targetY centreHit.pos < (Screen.new 1 1).height := by
    norm_num [Screen.targetY, Screen.new, centreHit]
  have hrgb : centreHit.photon.wavelengthToRgb = ⟨1, 1, 0⟩ :=
    wavelengthToRgb_at_580 _ rfl
  obtain ⟨s2, hbl, hw, hh, _, himg2, _⟩ :=
    Screen.blendOne_accept_spec (Screen.new 1 1) centreHit (by norm_num [centreHit]) hx hy
  have hlist : Screen.blendRays (Screen.new 1 1) [centreHit] = some s2 := by
    rw [show [centreHit] = centreHit :: [] from rfl,
      Screen.blendRays_cons_some _ s2 centreHit [] hbl, Screen.blendRays_nil]
  rw [hlist, Option.map_some', himg2]
  unfold Screen.blendedColor
  rw [hrgb]
  simp only [Screen.new, Option.some.injEq]
  norm_num

/-! ### Claim C8 -/

/-- C8 (amended): on a screen of positive dimensions the blend operation
never panics (the guarded `samp_buf` lookup always succeeds); it discards
every Miss and every hit whose computed (saturated) pixel index reaches
the grid bound, leaving the whole screen unchanged; an accepted hit takes
the running-mean color at its single target pixel and increments only
that pixel's sample count by one, leaving all other pixels unchanged.
A hit whose mathematically rounded index is negative is clamped to
index 0 by the saturating float-to-`usize` cast and blended there, not
discarded (see the counterexample). -/
theorem c8_blend_discard_local (s : Screen) (ins : Intersection)
    (_hw1 : 1 ≤ s.width) (_hh1 : 1 ≤ s.height) :
    ∃ s2 : Screen, s.blendOne ins = some s2 ∧
      (ins.intersection = 0 → s2 = s) ∧
      (s.width ≤ s.targetX ins.pos ∨ s.height ≤ s.targetY ins.pos → s2 = s) ∧
      (ins.intersection ≠ 0 → s.targetX ins.pos < s.width → s.targetY ins.pos < s.height →
        s2.sampBuf (s.targetX ins.pos, s.targetY ins.pos) =
          s.sampBuf (s.targetX ins.pos, s.targetY ins.pos) + 1 ∧
        s2.image (s.targetX ins.pos, s.targetY ins.pos) =
          s.blendedColor ins (s.targetX ins.pos, s.targetY ins.pos) ∧
        ∀ q : ℕ × ℕ, q ≠ (s.targetX ins.pos, s.targetY ins.pos) →
          s2.image q = s.image q ∧ s2.sampBuf q = s.sampBuf q) := by
  by_cases h0 : ins.intersection = 0
  · refine ⟨s, s.blendOne_miss ins h0, fun _ => rfl, fun _ => rfl, fun h _ _ => ?_⟩
    exact absurd h0 h
  · by_cases hb : s.width ≤ s.targetX ins.pos ∨ s.height ≤ s.targetY ins.pos
    · refine ⟨s, s.blendOne_oob ins h0 hb, fun h => absurd h h0, fun _ => rfl,
        fun _ hx hy => ?_⟩
      exact absurd hb (by omega)
    · push_neg at hb
      obtain ⟨s2, hbl, _, _, hsamp, himg, hother⟩ :=
        Screen.blendOne_accept_spec s ins h0 hb.1 hb.2
      refine ⟨s2, hbl, fun h => absurd h h0, fun h => ?_, fun _ _ _ => ⟨hsamp, himg, hother⟩⟩
      exact absurd h (by omega)

/-- Witness for C8 (amended): a miss on a 2 × 2 screen is discarded. -/
theorem c8_witness :
    ∃ s2 : Screen, (Screen.new 2 2).blendOne missRay = some s2 ∧
      (missRay.intersection = 0 → s2 = Screen.new 2 2) ∧
      ((Screen.new 2 2).width ≤ (Screen.new 2 2).targetX missRay.pos ∨
        (Screen.new 2 2).height ≤ (Screen.new 2 2).targetY missRay.pos → s2 = Screen.new 2 2) ∧
      (missRay.intersection ≠ 0 →
        (Screen.new 2 2).targetX missRay.pos < (Screen.new 2 2).width →
        (Screen.new 2 2).targetY missRay.pos < (Screen.new 2 2).height →
        s2.sampBuf ((Screen.new 2 2).targetX missRay.pos, (Screen.new 2 2).targetY missRay.pos) =
          (Screen.new 2 2).sampBuf
            ((Screen.new 2 2).targetX missRay.pos, (Screen.new 2 2).targetY missRay.pos) + 1 ∧
        s2.image ((Screen.new 2 2).targetX missRay.pos, (Screen.new 2 2).targetY missRay.pos) =
          (Screen.new 2 2).blendedColor missRay
            ((Screen.new 2 2).targetX missRay.pos, (Screen.new 2 2).targetY missRay.pos) ∧
        ∀ q : ℕ × ℕ,
          q ≠ ((Screen.new 2 2).targetX missRay.pos, (Screen.new 2 2).targetY missRay.pos) →
          s2.image q = (Screen.new 2 2).image q ∧ s2.sampBuf q = (Screen.new 2 2).sampBuf q) :=
  c8_blend_discard_local (Screen.new 2 2) missRay (by norm_num [Screen.new])
    (by norm_num [Screen.new])

/-- C8 counterexample: a hit with sensor x coordinate `-1` on a 3 × 3
screen has mathematically rounded pixel index `-2`, outside the grid,
yet it is not discarded: the saturating cast clamps it to column 0 and
the blend changes that pixel's red channel from 0 to 1. -/
theorem c8_counterexample :
    round (negHit.pos.x * (((Screen.new 3 3).width - 1 : ℕ) : ℝ)) < 0 ∧
    (Screen.blendOne (Screen.new 3 3) negHit).map (fun s => (s.image (0, 1)).r) ≠
      some (((Screen.new 3 3).image (0, 1)).r) := by
  have harg : negHit.pos.x * (((Screen.new 3 3).width - 1 : ℕ) : ℝ) = -2 := by
    norm_num [negHit, Screen.new]
  have hround : round (negHit.pos.x * (((Screen.new 3 3).width - 1 : ℕ) : ℝ)) = -2 := by
    rw [harg]
    exact round_eq_of (-2) (-2) (by norm_num) (by norm_num)
  have htx : (Screen.new 3 3).targetX negHit.pos = 0 := by
    unfold Screen.targetX
    rw [hround]
    rfl
  have hargY : negHit.pos.y * (((Screen.new 3 3).height - 1 : ℕ) : ℝ) = 1 := by
    norm_num [negHit, Screen.new]
  have hty : (Screen.new 3 3).targetY negHit.pos = 1 := by
    unfold Screen.targetY
    rw [hargY, round_eq_of 1 1 (by norm_num) (by norm_num)]
    rfl
  have hrgb : negHit.photon.wavelengthToRgb = ⟨1, 1, 0⟩ := wavelengthToRgb_at_580 _ rfl
  refine ⟨by rw [hround]; norm_num, ?_⟩
  obtain ⟨s2, hbl, _, _, _, himg, _⟩ :=
    Screen.blendOne_accept_spec (Screen.new 3 3) negHit (by norm_num [negHit])
      (by rw [htx]; norm_num [Screen.new]) (by rw [hty]; norm_num [Screen.new])
  rw [htx, hty] at himg
  rw [hbl, Option.map_some', himg]
  unfold Screen.blendedColor
  rw [hrgb]
  simp only [Screen.new, Option.some.injEq]
  norm_num

end Foxel
